import Mathlib

/-!
Shallow embedding of the npuzzle repository core, and proofs of the
specification claims about it.

Source files embedded here:
 - src/myfiles/gen/puzzle.py      (Puzzle.generate_snail, Puzzle.shuffle,
                                   Puzzle.ensure_solvability)
 - src/npuzzle/core/solution.py   (Solution.from_json, Solution._diff_tiles)
 - src/npuzzle/core/interactive.py (InteractiveViewer.run navigation state
                                   machine, InteractiveViewer._get_moved_tile)
 - src/npuzzle/io/parser.py       (parse_input_file)

Grids are row-major lists of Int (Python lists of int); the blank is 0 and
the generator's unwritten-cell sentinel is -1.
-/

namespace NPuzzle

/-! ## Generic list operations mirroring Python list mutation -/

/-- Simultaneous Python assignment g[a], g[b] = g[b], g[a]: position a
receives the old value at b, then position b receives the old value at a.
Out-of-range defaults never matter at the call sites proved about. -/
def swapCells (g : List Int) (a b : Nat) : List Int :=
  (g.set a (g.getD b 0)).set b (g.getD a 0)

/-! ## src/myfiles/gen/puzzle.py : Puzzle.shuffle (lines 77-95) -/

/-- The list possible_swaps built in Puzzle.shuffle: neighbor flat indices of
the blank cell idx, in source order (left, right, up, down), each guarded by
the same edge tests as the source. -/
def possible_swaps (size idx : Nat) : List Nat :=
  (if idx % size > 0 then [idx - 1] else []) ++
  (if idx % size < size - 1 then [idx + 1] else []) ++
  (if idx / size > 0 then [idx - size] else []) ++
  (if idx / size < size - 1 then [idx + size] else [])

/-- One iteration of the loop in Puzzle.shuffle: locate the blank, pick one
legal neighbor (the random rd.choice is modeled by an arbitrary choice index
c taken modulo the number of candidates, which ranges over every element the
random source can pick), then perform grid[idx] = grid[swap_idx];
grid[swap_idx] = 0. rd.choice raises on an empty candidate list; that branch
is modeled as the identity and is unreachable for the grids quantified over
in the theorems below (size at least 2). -/
def shuffleRound (size c : Nat) (g : List Int) : List Int :=
  let idx := g.indexOf 0
  let swaps := possible_swaps size idx
  if swaps.length = 0 then g
  else
    let j := swaps.getD (c % swaps.length) idx
    (g.set idx (g.getD j 0)).set j 0

/-- Puzzle.shuffle: iterations rounds, one per element of the choice
sequence; iterations = choices.length. -/
def shuffle (size : Nat) (g : List Int) : List Nat → List Int
  | [] => g
  | c :: cs => shuffle size (shuffleRound size c g) cs

/-! ## src/myfiles/gen/puzzle.py : Puzzle.generate_snail (lines 38-75) -/

/-- Python read g[i] with negative-index wraparound (unused defaults for the
out-of-range reads Python would reject; no in-range call site relies on
them). -/
def pyGetI (g : List Int) (i : Int) : Int :=
  if 0 ≤ i then g.getD i.toNat (-1) else g.getD (g.length - (-i).toNat) (-1)

/-- Python write g[i] = v with negative-index wraparound (List.set ignores
out-of-range writes, which Python would reject; no call site proved about
goes out of range). -/
def pySetI (g : List Int) (i : Int) (v : Int) : List Int :=
  if 0 ≤ i then g.set i.toNat v else g.set (g.length - (-i).toNat) v

/-- The while-True loop of Puzzle.generate_snail, with an explicit fuel
bound (the loop writes exactly size*size cells before its break, so fuel
size*size suffices for the sizes proved about). Besides the grid it returns
the trace of flat indices written, most recent write first, to state that
every cell is written exactly once (its head is the cell written last). -/
def snailLoop (size : Nat) :
    Nat → List Int → Int → Int → Int → Int → Int → List Int →
      List Int × List Int
  | 0, grid, _, _, _, _, _, writes => (grid, writes)
  | fuel + 1, grid, x, y, dx, dy, val, writes =>
    let index : Int := x + y * (size : Int)
    let grid2 := pySetI grid index val
    let writes2 := index :: writes
    if val = 0 then (grid2, writes2)
    else
      let val2 := val + 1
      let val3 := if val2 = (size : Int) * (size : Int) then 0 else val2
      let nx := x + dx
      let ny := y + dy
      let oob : Bool := nx < 0 || (size : Int) ≤ nx || ny < 0 || (size : Int) ≤ ny
      let filled : Bool :=
        if oob then false else pyGetI grid2 (nx + ny * (size : Int)) != -1
      let turn := oob || filled
      let dx2 := if turn then -dy else dx
      let dy2 := if turn then dx else dy
      snailLoop size fuel grid2 (x + dx2) (y + dy2) dx2 dy2 val3 writes2

/-- Puzzle.generate_snail on the freshly constructed grid of -1 sentinels:
current_value starts at 1, position at (0,0), direction at (1,0). Returns
the final grid together with the trace of written flat indices. -/
def generate_snail (size : Nat) : List Int × List Int :=
  snailLoop size (size * size) (List.replicate (size * size) (-1)) 0 0 1 0 1 []

/-! ## src/myfiles/gen/puzzle.py : Puzzle.ensure_solvability (lines 97-109) -/

/-- Puzzle.ensure_solvability: no-op when the instance should stay solvable;
otherwise swap the last two cells when the blank sits at flat index 0 or 1,
else swap the first two cells. -/
def ensure_solvability (g : List Int) (shouldBeSolvable : Bool) : List Int :=
  if shouldBeSolvable then g
  else
    let lastIndex := g.length - 1
    if g.getD 0 0 == 0 || g.getD 1 0 == 0 then
      swapCells g lastIndex (lastIndex - 1)
    else
      swapCells g 0 1

/-! ## Solvability class: adjacency, single blank moves, reachability -/

/-- Flat indices i and j are orthogonally adjacent cells of the size-by-size
grid: same row and neighboring columns, or same column and neighboring
rows. -/
def adjacent (size i j : Nat) : Prop :=
  (i / size = j / size ∧ (i % size + 1 = j % size ∨ j % size + 1 = i % size)) ∨
  (i % size = j % size ∧ (i / size + 1 = j / size ∨ j / size + 1 = i / size))

instance (size i j : Nat) : Decidable (adjacent size i j) := by
  unfold adjacent; infer_instance

/-- One legal move: the blank (value 0, at some in-range index i) swaps with
a legally adjacent in-range cell j. The result shape matches the two
assignments performed by Puzzle.shuffle. -/
def Move (size : Nat) (g g2 : List Int) : Prop :=
  ∃ i j, i < g.length ∧ j < g.length ∧ adjacent size i j ∧
    g.getD i 0 = 0 ∧ g2 = (g.set i (g.getD j 0)).set j 0

/-- Reachability by blank moves: the spec takes this as the formal meaning
of being in the same solvability (parity) class. -/
inductive Reach (size : Nat) : List Int → List Int → Prop
  | refl (g : List Int) : Reach size g g
  | tail (g h h2 : List Int) : Reach size g h → Move size h h2 → Reach size g h2

/-- The canonical value multiset of a size-by-size grid: 0..size*size-1. -/
def gridValues (size : Nat) : List Int :=
  (List.range (size * size)).map Int.ofNat

/-! ## Permutation parity via inversion count -/

/-- Number of inversions of a list of integers: pairs of positions in order
whose values are out of order. -/
def inversions : List Int → Nat
  | [] => 0
  | x :: xs => xs.countP (fun y => decide (y < x)) + inversions xs

/-! ## src/npuzzle/core/solution.py : Solution.from_json (lines 47-77)

Python JSON values as delivered by json.loads. Numbers are modeled as JSON
integers (the solver schema has only integer fields; fractional and exponent
number forms are outside the model). Objects keep insertion order with a
later duplicate key overwriting the earlier value, as Python dicts do. -/

inductive Json where
  | jnull : Json
  | jbool (b : Bool) : Json
  | jnum (n : Int) : Json
  | jstr (s : String) : Json
  | jarr (xs : List Json) : Json
  | jobj (fields : List (String × Json)) : Json

/-- Python truthiness of a JSON value, as tested by the source line
if not data.get("success"). -/
def truthy : Json → Bool
  | .jnull => false
  | .jbool b => b
  | .jnum n => n != 0
  | .jstr s => s != ""
  | .jarr xs => !xs.isEmpty
  | .jobj fs => !fs.isEmpty

/-- Dict lookup (keys are unique by construction of the loader). -/
def lookupKey (k : String) : List (String × Json) → Option Json
  | [] => none
  | (k2, v) :: rest => if k2 = k then some v else lookupKey k rest

/-- Dict insertion with Python overwrite semantics: an existing key keeps
its position and receives the new value. -/
def insertKey (fields : List (String × Json)) (k : String) (v : Json) :
    List (String × Json) :=
  match fields with
  | [] => [(k, v)]
  | (k2, v2) :: rest =>
    if k2 = k then (k2, v) :: rest else (k2, v2) :: insertKey rest k v

/-- Python subscript e[k] with a string key, inside the try block of
from_json: a KeyError (key absent) or TypeError (e not a dict) both land in
the except clause, so both are modeled as none. -/
def getItemStr (j : Json) (k : String) : Option Json :=
  match j with
  | .jobj fields => lookupKey k fields
  | _ => none

/-- Python iteration over a JSON value, for the loop for entry in
data["path"]: arrays give their elements, strings their characters (as
one-character strings), dicts their keys; other values raise TypeError,
which the except clause of from_json also catches. -/
def pyIter : Json → Option (List Json)
  | .jarr xs => some xs
  | .jstr s => some (s.toList.map (fun c => Json.jstr (String.mk [c])))
  | .jobj fields => some (fields.map (fun p => Json.jstr p.1))
  | _ => none

/-- One path entry as stored by from_json. Python performs no shape check
on the field values, so each field holds whatever JSON value was found. -/
structure State where
  tiles : Json
  g_cost : Json
  h_cost : Json
  f_cost : Json

/-- The statistics record as stored by from_json; again no shape check on
the three values. -/
structure Statistics where
  states_selected : Json
  max_states_in_memory : Json
  solution_length : Json

/-- A parsed Solution. -/
structure Solution where
  states : List State
  statistics : Statistics

/-- The three observable outcomes of Solution.from_json besides success:
InvalidSolutionFormat, SolverFailedError, and the uncaught AttributeError
that Python raises when the top-level JSON value is not an object (the
data.get attribute access happens before the try block). -/
inductive SolutionError where
  | invalidFormat : SolutionError
  | solverFailed : SolutionError
  | attributeError : SolutionError
deriving DecidableEq

def tilesKey : String := "tiles"

def gCostKey : String := "g_cost"

def hCostKey : String := "h_cost"

def fCostKey : String := "f_cost"

def successKey : String := "success"

def pathKey : String := "path"

def statisticsKey : String := "statistics"

def statesSelectedKey : String := "states_selected"

def maxStatesKey : String := "max_states_in_memory"

def solutionLengthKey : String := "solution_length"

/-- Body of the State(...) construction inside the path loop: the four
subscript accesses, any failure of which is caught as
InvalidSolutionFormat. -/
def extractState (e : Json) : Option State := do
  let t ← getItemStr e tilesKey
  let g ← getItemStr e gCostKey
  let h ← getItemStr e hCostKey
  let f ← getItemStr e fCostKey
  some ⟨t, g, h, f⟩

/-- The whole try block of from_json: build the states from data["path"],
then the statistics from data["statistics"]; none models the caught
KeyError/TypeError/IndexError. -/
def extractSolution (fields : List (String × Json)) : Option Solution := do
  let path ← lookupKey pathKey fields
  let entries ← pyIter path
  let states ← entries.mapM extractState
  let stats ← lookupKey statisticsKey fields
  let ss ← getItemStr stats statesSelectedKey
  let ms ← getItemStr stats maxStatesKey
  let sl ← getItemStr stats solutionLengthKey
  some ⟨states, ⟨ss, ms, sl⟩⟩

/-! ## json.loads, modeled as a recursive-descent reader over the character
list, with a fuel bound. The modeled grammar is the JSON subset the solver
contract uses: null, true, false, integer numbers (sign, no leading zeros,
no fraction or exponent), strings with the single-character escapes, arrays
and objects. none models json.JSONDecodeError. -/

/-- JSON insignificant whitespace. -/
def jsonWs (c : Char) : Bool :=
  c = ' ' || c = '\t' || c = '\n' || c = '\r'

def skipWs (cs : List Char) : List Char :=
  cs.dropWhile jsonWs

/-- Single-character string escapes of JSON. -/
def escChar (c : Char) : Option Char :=
  if c = '"' then some '"'
  else if c = '\\' then some '\\'
  else if c = '/' then some '/'
  else if c = 'n' then some '\n'
  else if c = 't' then some '\t'
  else if c = 'r' then some '\r'
  else if c = 'b' then some '\x08'
  else if c = 'f' then some '\x0c'
  else none

/-- Read the body of a string literal, after the opening quote; returns the
string content and the remaining characters after the closing quote. -/
def readString : List Char → Option (List Char × List Char)
  | [] => none
  | '"' :: rest => some ([], rest)
  | '\\' :: c :: rest =>
    match escChar c with
    | none => none
    | some e => (readString rest).map (fun p => (e :: p.1, p.2))
  | '\\' :: [] => none
  | c :: rest => (readString rest).map (fun p => (c :: p.1, p.2))

def digitsToNat (ds : List Char) : Nat :=
  ds.foldl (fun acc c => acc * 10 + (c.toNat - 48)) 0

/-- Read a JSON integer number (no leading zeros, no fraction/exponent
forms: those are outside the model). -/
def readNumber (cs : List Char) : Option (Json × List Char) :=
  let neg := cs.headD ' ' = '-'
  let cs2 := if neg then cs.drop 1 else cs
  let ds := cs2.takeWhile Char.isDigit
  let rest := cs2.dropWhile Char.isDigit
  if ds.isEmpty then none
  else if ds.headD '0' = '0' ∧ ds.length > 1 then none
  else if rest.headD ' ' = '.' ∨ rest.headD ' ' = 'e' ∨ rest.headD ' ' = 'E' then
    none
  else
    let n : Int := Int.ofNat (digitsToNat ds)
    some (.jnum (if neg then -n else n), rest)

mutual

/-- Read one JSON value. -/
def readValue : Nat → List Char → Option (Json × List Char)
  | 0, _ => none
  | fuel + 1, cs =>
    match skipWs cs with
    | [] => none
    | c :: rest =>
      if c = 'n' then
        match rest with
        | 'u' :: 'l' :: 'l' :: r => some (.jnull, r)
        | _ => none
      else if c = 't' then
        match rest with
        | 'r' :: 'u' :: 'e' :: r => some (.jbool true, r)
        | _ => none
      else if c = 'f' then
        match rest with
        | 'a' :: 'l' :: 's' :: 'e' :: r => some (.jbool false, r)
        | _ => none
      else if c = '"' then
        (readString rest).map (fun p => (Json.jstr (String.mk p.1), p.2))
      else if c = '-' ∨ c.isDigit then
        readNumber (c :: rest)
      else if c = '[' then
        match skipWs rest with
        | ']' :: r => some (.jarr [], r)
        | _ => readArrayItems fuel rest []
      else if c = '\x7b' then
        match skipWs rest with
        | '\x7d' :: r => some (.jobj [], r)
        | _ => readObjItems fuel rest []
      else none

/-- Read the comma-separated items of a non-empty array, after the opening
bracket (or after a comma). -/
def readArrayItems : Nat → List Char → List Json → Option (Json × List Char)
  | 0, _, _ => none
  | fuel + 1, cs, acc =>
    match readValue fuel cs with
    | none => none
    | some (v, r) =>
      match skipWs r with
      | ',' :: r2 => readArrayItems fuel r2 (acc ++ [v])
      | ']' :: r2 => some (.jarr (acc ++ [v]), r2)
      | _ => none

/-- Read the comma-separated members of a non-empty object, after the
opening brace (or after a comma). -/
def readObjItems : Nat → List Char → List (String × Json) →
    Option (Json × List Char)
  | 0, _, _ => none
  | fuel + 1, cs, acc =>
    match skipWs cs with
    | '"' :: r =>
      match readString r with
      | none => none
      | some (key, r2) =>
        match skipWs r2 with
        | ':' :: r3 =>
          match readValue fuel r3 with
          | none => none
          | some (v, r4) =>
            let acc2 := insertKey acc (String.mk key) v
            match skipWs r4 with
            | ',' :: r5 => readObjItems fuel r5 acc2
            | '\x7d' :: r5 => some (.jobj acc2, r5)
            | _ => none
        | _ => none
    | _ => none

end

/-- json.loads: read one value and require only whitespace to remain. -/
def parseJson (raw : String) : Option Json :=
  match readValue (4 * (raw.length + 1)) raw.toList with
  | none => none
  | some (v, rest) => if (skipWs rest).isEmpty then some v else none

/-- Solution.from_json. The json.loads failure is raised as
InvalidSolutionFormat; a non-object top level crashes with AttributeError at
data.get (outside the try block); a falsy success flag raises
SolverFailedError; any failure inside the try block is caught and raised as
InvalidSolutionFormat. -/
def from_json (raw : String) : Except SolutionError Solution :=
  match parseJson raw with
  | none => .error .invalidFormat
  | some (.jobj fields) =>
    if truthy ((lookupKey successKey fields).getD .jnull) = false then
      .error .solverFailed
    else
      match extractSolution fields with
      | some sol => .ok sol
      | none => .error .invalidFormat
  | some _ => .error .attributeError

/-! ## src/npuzzle/core/solution.py : Solution._diff_tiles (lines 82-91)
and src/npuzzle/core/interactive.py : InteractiveViewer._get_moved_tile
(lines 288-301). Both work on plain tile lists. -/

/-- Solution._diff_tiles: (tile_out, tile_in) where tile_out is the value of
curr at the blank position of prev and tile_in the value of prev at the
blank position of curr. -/
def diff_tiles (prev curr : List Int) : Int × Int :=
  let prevZero := prev.indexOf 0
  let currZero := curr.indexOf 0
  (curr.getD prevZero 0, prev.getD currZero 0)

/-- InteractiveViewer._get_moved_tile, over the list of tile lists of the
solution states and the current step: None at step 0, else the value of the
current tiles at the previous blank position. -/
def get_moved_tile (states : List (List Int)) (step : Nat) : Option Int :=
  if step = 0 then none
  else
    let prevTiles := states.getD (step - 1) []
    let currTiles := states.getD step []
    some (currTiles.getD (prevTiles.indexOf 0) 0)

/-! ## src/npuzzle/core/interactive.py : InteractiveViewer.run (lines
373-407), the navigation state machine over (current_step, view_mode). -/

inductive ViewMode where
  | grid : ViewMode
  | stats : ViewMode
  | graph : ViewMode
deriving DecidableEq

/-- The navigation cursor: current_step and view_mode. -/
structure NavState where
  step : Nat
  view : ViewMode
deriving DecidableEq

/-- The logical inputs of the run loop: RIGHT arrow (advance), LEFT arrow
(retreat), the r key (restart) and the space key (step-forward). The q key
leaves the loop without changing the state. -/
inductive NavInput where
  | advance : NavInput
  | retreat : NavInput
  | restart : NavInput
  | stepForward : NavInput
deriving DecidableEq

/-- One round of the key dispatch in InteractiveViewer.run, with last =
total_steps. Branches follow the source order of the elif chain. -/
def navStep (last : Nat) (s : NavState) : NavInput → NavState
  | .restart => ⟨0, .grid⟩
  | .advance =>
    match s.view with
    | .graph => s
    | .stats => ⟨s.step, .graph⟩
    | .grid =>
      if s.step < last then ⟨s.step + 1, .grid⟩
      else if s.step = last then ⟨s.step, .stats⟩
      else s
  | .retreat =>
    match s.view with
    | .graph => ⟨s.step, .stats⟩
    | .stats => ⟨s.step, .grid⟩
    | .grid => if s.step > 0 then ⟨s.step - 1, .grid⟩ else s
  | .stepForward =>
    if s.view = .grid ∧ s.step < last then ⟨s.step + 1, .grid⟩ else s

/-- States the run loop can reach from the initial state (0, grid). -/
inductive NavReach (last : Nat) : NavState → Prop
  | init : NavReach last ⟨0, .grid⟩
  | step (s : NavState) (i : NavInput) :
      NavReach last s → NavReach last (navStep last s i)

/-! ## src/npuzzle/io/parser.py : parse_input_file (lines 12-38), over the
list of lines of the file content (splitlines). MAX_SIZE = 16 is from
src/myfiles/core/constants.py line 3. -/

def MAX_SIZE : Int := 16

/-- Python str.strip / str.split whitespace. -/
def pySpace (c : Char) : Bool :=
  c = ' ' || c = '\t' || c = '\n' || c = '\r' || c = '\x0b' || c = '\x0c'

/-- Python str.strip. -/
def pyStrip (s : String) : String :=
  String.mk (((s.toList.dropWhile pySpace).reverse.dropWhile pySpace).reverse)

/-- Python str.split with no argument: maximal runs of non-whitespace,
written with a fuel bound (each step consumes at least one character, so
fuel length+1 suffices) so that it evaluates by kernel reduction. -/
def splitTokensF : Nat → List Char → List (List Char)
  | 0, _ => []
  | _, [] => []
  | fuel + 1, c :: rest =>
    if pySpace c then splitTokensF fuel rest
    else
      (c :: rest.takeWhile (fun d => !pySpace d)) ::
        splitTokensF fuel (rest.dropWhile (fun d => !pySpace d))

def splitTokens (cs : List Char) : List (List Char) :=
  splitTokensF (cs.length + 1) cs

/-- Python int() on an already stripped token: an optional sign followed by
decimal digits (the underscore digit-group separators Python also accepts
are outside the model). none models ValueError. -/
def pyInt (s : String) : Option Int :=
  let digits : List Char → Option Int := fun ds =>
    if ds.isEmpty || !ds.all Char.isDigit then none
    else some (Int.ofNat (digitsToNat ds))
  match s.toList with
  | '-' :: ds => (digits ds).map Neg.neg
  | '+' :: ds => digits ds
  | ds => digits ds

/-- The int values of the whitespace-separated tokens of one line, none when
some token fails int(). -/
def lineValues (l : String) : Option (List Int) :=
  (splitTokens (pyStrip l).toList).mapM (fun tok => pyInt (String.mk tok))

/-- Python str.startswith applied to the one-character comment mark: the
first character is the hash mark. -/
def startsWithHash (s : String) : Bool :=
  s.toList.headD ' ' = '#'

/-- The errors parse_input_file can raise: the three IO errors of the spec
plus the ValueError that int() raises on a malformed number (uncaught in the
source). -/
inductive ParseErr where
  | valueErr : ParseErr
  | invalidSize : ParseErr
  | missingSize : ParseErr
  | invalidDims : ParseErr
deriving DecidableEq

/-- The line loop of parse_input_file with its two accumulators (size and
tiles), followed by the two final checks. -/
def parseLines : List String → Option Int → List Int → Except ParseErr (List Int)
  | [], none, _ => .error .missingSize
  | [], some n, tiles =>
    if (tiles.length : Int) ≠ n * n then .error .invalidDims else .ok tiles
  | line :: rest, sizeOpt, tiles =>
    let t := pyStrip line
    if t = "" || startsWithHash t then parseLines rest sizeOpt tiles
    else
      match sizeOpt with
      | none =>
        match pyInt t with
        | none => .error .valueErr
        | some n =>
          if n < 3 || n > MAX_SIZE then .error .invalidSize
          else parseLines rest (some n) tiles
      | some n =>
        match lineValues line with
        | none => .error .valueErr
        | some vals => parseLines rest (some n) (tiles ++ vals)

/-- parse_input_file over the lines of the file content. -/
def parse_input_file (lines : List String) : Except ParseErr (List Int) :=
  parseLines lines none []

/-- The lines the loop does not skip: nonblank after stripping and not
starting with the comment mark. -/
def effectiveLines (lines : List String) : List String :=
  lines.filter (fun l => !(pyStrip l = "" || startsWithHash (pyStrip l)))

/-- The int values collected from a list of lines, none when some token
fails int(). -/
def allValues (ls : List String) : Option (List Int) :=
  (ls.mapM lineValues).map List.flatten

/-- What parse_input_file computes, written directly over the effective
(non-skipped) lines: the first effective line is the size line, the rest
supply the tiles. Proved equal to parse_input_file below. -/
def runFrom (eff : List String) : Except ParseErr (List Int) :=
  match eff with
  | [] => .error .missingSize
  | l :: rest =>
    match pyInt (pyStrip l) with
    | none => .error .valueErr
    | some n =>
      if n < 3 || n > MAX_SIZE then .error .invalidSize
      else
        match allValues rest with
        | none => .error .valueErr
        | some vals =>
          if (vals.length : Int) ≠ n * n then .error .invalidDims
          else .ok vals

/-! ## Helper definitions used only to state theorems -/

/-- Number of pairs taken one from A and one from B (in this order) whose
values are out of order: the cross term of the inversion count of A ++ B. -/
def crossCount (A B : List Int) : Nat :=
  (A.map (fun x => B.countP (fun y => decide (y < x)))).sum

/-- The spec example payload for which the solver reports failure. -/
def rawSuccessFalse : String := "\x7b\"success\": false\x7d"

/-- The spec example of non-JSON input. -/
def rawNotJson : String := "not json"

/-- The spec example of a successful payload with the path missing. -/
def rawSuccessTrue : String := "\x7b\"success\": true\x7d"

/-- A payload whose entry field tiles is present but of the wrong shape
(a number instead of a list of ints): from_json accepts it. -/
def rawWrongShapeTiles : String :=
  "\x7b\"success\": true, \"path\": [\x7b\"tiles\": 5, \"g_cost\": 0, \"h_cost\": 0, \"f_cost\": 0\x7d], \"statistics\": \x7b\"states_selected\": 1, \"max_states_in_memory\": 1, \"solution_length\": 0\x7d\x7d"

/-- Decidable check for the grid half of claim C2 at one size: the
generated grid has the right length and contains every canonical value
(with the canonical values duplicate-free this makes it a permutation of
0..size*size-1), and the cell written last (the head of the trace) holds
the value 0. -/
def snailGridOk (ss : Nat) : Bool :=
  let p := generate_snail ss
  let target := gridValues ss
  ((p.1.length == target.length) && target.all (fun v => p.1.contains v)) &&
  (p.1.getD (p.2.headD (-1)).toNat (-1) == 0)

/-- Decidable check for the trace half of claim C2 at one size: the write
trace has the right length and visits every flat index, so every cell is
written exactly once. -/
def snailTraceOk (ss : Nat) : Bool :=
  let p := generate_snail ss
  let target := gridValues ss
  (p.2.length == target.length) && target.all (fun v => p.2.contains v)

/-! # Theorems -/

/-! ## ReplayNavigator (claims C7, C8) -/

theorem navStep_step_le (last : Nat) (s : NavState) (i : NavInput)
    (h : s.step ≤ last) : (navStep last s i).step ≤ last := by
  cases i <;> cases hv : s.view <;> simp only [navStep, hv] <;>
    (repeat' split) <;> (try simp) <;> omega

theorem navReach_step_le (last : Nat) (s : NavState) (h : NavReach last s) :
    s.step ≤ last := by
  induction h with
  | init => exact Nat.zero_le last
  | step s i _ ih => exact navStep_step_le last s i ih

/-- C7: the navigation state machine over (current_step, view_mode),
started at (0, grid), satisfies the specified transition table at every
reachable state: in grid view, advance increments current_step below last
and switches to the stats view at last; retreat decrements above 0 and is a
no-op at 0; in stats, advance goes to graph and retreat back to grid with
the step unchanged; in graph, retreat goes to stats and advance is a no-op;
restart resets to (0, grid) from anywhere. Reachable steps never exceed
last. -/
theorem c7_replay_navigator_transitions (last : Nat) (s : NavState)
    (hr : NavReach last s) :
    s.step ≤ last ∧
    (s.view = .grid → s.step < last →
      navStep last s .advance = ⟨s.step + 1, .grid⟩) ∧
    (s.view = .grid → s.step = last →
      navStep last s .advance = ⟨s.step, .stats⟩) ∧
    (s.view = .grid → 0 < s.step →
      navStep last s .retreat = ⟨s.step - 1, .grid⟩) ∧
    (s.view = .grid → s.step = 0 → navStep last s .retreat = s) ∧
    (s.view = .stats → navStep last s .advance = ⟨s.step, .graph⟩) ∧
    (s.view = .stats → navStep last s .retreat = ⟨s.step, .grid⟩) ∧
    (s.view = .graph → navStep last s .retreat = ⟨s.step, .stats⟩) ∧
    (s.view = .graph → navStep last s .advance = s) ∧
    navStep last s .restart = ⟨0, .grid⟩ := by
  refine ⟨navReach_step_le last s hr, ?_, ?_, ?_, ?_, ?_, ?_, ?_, ?_, rfl⟩ <;>
    intro hv
  · intro hlt; simp [navStep, hv, hlt]
  · intro heq; simp [navStep, hv, heq]
  · intro hpos; simp [navStep, hv, hpos]
  · intro h0; cases s with
    | mk st vw => simp_all [navStep]
  · simp [navStep, hv]
  · cases s with
    | mk st vw => subst hv; simp [navStep]
  · cases s with
    | mk st vw => subst hv; simp [navStep]
  · cases s with
    | mk st vw => subst hv; simp [navStep]

theorem c7_replay_navigator_transitions_witness :
    NavReach 1 ⟨0, ViewMode.grid⟩ ∧
    navStep 1 ⟨0, ViewMode.grid⟩ .advance = ⟨1, ViewMode.grid⟩ ∧
    navStep 1 ⟨0, ViewMode.grid⟩ .restart = ⟨0, ViewMode.grid⟩ := by
  have h := c7_replay_navigator_transitions 1 ⟨0, .grid⟩ NavReach.init
  exact ⟨NavReach.init, h.2.1 rfl (by decide), h.2.2.2.2.2.2.2.2.2⟩

/-- C8 counterexample: at the reachable state (step = last, view = grid)
the step-forward input (space key) is a no-op while the advance input
(right arrow) switches to the stats view, so the two handlers are not
equivalent at current_step = last, refuting the claim as stated. -/
theorem c8_counterexample :
    NavReach 1 ⟨1, ViewMode.grid⟩ ∧
    (⟨1, ViewMode.grid⟩ : NavState).view = ViewMode.grid ∧
    navStep 1 ⟨1, ViewMode.grid⟩ .stepForward = ⟨1, ViewMode.grid⟩ ∧
    navStep 1 ⟨1, ViewMode.grid⟩ .advance = ⟨1, ViewMode.stats⟩ ∧
    navStep 1 ⟨1, ViewMode.grid⟩ .stepForward ≠
      navStep 1 ⟨1, ViewMode.grid⟩ .advance := by
  refine ⟨?_, rfl, by decide, by decide, by decide⟩
  have h0 : NavReach 1 ⟨0, ViewMode.grid⟩ := NavReach.init
  have h1 := NavReach.step ⟨0, ViewMode.grid⟩ NavInput.advance h0
  have he : navStep 1 ⟨0, ViewMode.grid⟩ NavInput.advance = ⟨1, ViewMode.grid⟩ :=
    by decide
  rwa [he] at h1

/-- C8 amended: in grid view the step-forward input has the same effect as
advance whenever current_step < last; at current_step = last they differ:
step-forward is a no-op while advance switches the view to stats. -/
theorem c8_step_forward_vs_advance (last : Nat) (s : NavState)
    (hv : s.view = ViewMode.grid) :
    (s.step < last →
      navStep last s .stepForward = navStep last s .advance) ∧
    (s.step = last →
      navStep last s .stepForward = s ∧
      navStep last s .advance = ⟨s.step, ViewMode.stats⟩) := by
  constructor
  · intro hlt; simp [navStep, hv, hlt]
  · intro heq; subst heq
    constructor
    · cases s with
      | mk st vw => simp_all [navStep]
    · simp [navStep, hv]

theorem c8_step_forward_vs_advance_witness :
    navStep 3 ⟨1, ViewMode.grid⟩ .stepForward =
      navStep 3 ⟨1, ViewMode.grid⟩ .advance :=
  (c8_step_forward_vs_advance 3 ⟨1, ViewMode.grid⟩ rfl).1 (by decide)

/-! ## List swap permutation lemmas (shared by the shuffle and diff claims) -/

theorem perm_head_swap (t : List Int) (a : Int) :
    ∀ (j : Nat), j < t.length → List.Perm (t.getD j 0 :: t.set j a) (a :: t) := by
  induction t with
  | nil => intro j hj; simp at hj
  | cons b t2 ih =>
    intro j hj
    cases j with
    | zero => simpa using List.Perm.swap a b t2
    | succ k =>
      have hk : k < t2.length := by simpa using hj
      refine List.Perm.trans (List.Perm.swap b (t2.getD k 0) (t2.set k a)) ?_
      exact List.Perm.trans (List.Perm.cons b (ih k hk)) (List.Perm.swap a b t2)

theorem swap_perm (g : List Int) :
    ∀ (i j : Nat), i < g.length → j < g.length →
      List.Perm ((g.set i (g.getD j 0)).set j (g.getD i 0)) g := by
  induction g with
  | nil => intro i j hi _; simp at hi
  | cons a t ih =>
    intro i j hi hj
    cases i with
    | zero =>
      cases j with
      | zero => simp
      | succ k =>
        have hk : k < t.length := by simpa using hj
        simpa using perm_head_swap t a k hk
    | succ m =>
      have hm : m < t.length := by simpa using hi
      cases j with
      | zero => simpa using perm_head_swap t a m hm
      | succ k =>
        have hk : k < t.length := by simpa using hj
        simpa using List.Perm.cons a (ih m k hm hk)

/-- The blank swap performed by one shuffle round is a permutation of the
grid: position i holds the blank, so writing 0 at j and the old value of j
at i is the swap of positions i and j. -/
theorem blank_swap_perm (g : List Int) (i j : Nat) (hi : i < g.length)
    (hj : j < g.length) (h0 : g.getD i 0 = 0) :
    List.Perm ((g.set i (g.getD j 0)).set j 0) g := by
  have h := swap_perm g i j hi hj
  rwa [h0] at h

/-! ## Exactly-one-blank lemmas (shared by the diff and solvability claims) -/

theorem two_le_count_of_two_zeros (g : List Int) (i j : Nat) (hij : i < j)
    (hj : j < g.length) (h0i : g.getD i 0 = 0) (h0j : g.getD j 0 = 0) :
    2 ≤ g.count 0 := by
  have hi : i < g.length := lt_trans hij hj
  have hsplit : g.take j ++ g.drop j = g := List.take_append_drop j g
  have hlt : i < (g.take j).length := by simp; omega
  have hmem : (0 : Int) ∈ g.take j := by
    have hgt : (g.take j).getD i 0 = g.getD i 0 := by
      rw [List.getD_eq_getElem _ 0 hlt, List.getD_eq_getElem g 0 hi]
      simp [List.getElem_take]
    have hz : (g.take j).getD i 0 = 0 := by rw [hgt, h0i]
    rw [List.getD_eq_getElem _ 0 hlt] at hz
    exact hz ▸ List.getElem_mem hlt
  have h1 : 1 ≤ (g.take j).count 0 := List.count_pos_iff.mpr hmem
  have hmem2 : (0 : Int) ∈ g.drop j := by
    have hlt2 : 0 < (g.drop j).length := by simp; omega
    have hgt2 : (g.drop j).getD 0 0 = g.getD j 0 := by
      rw [List.getD_eq_getElem _ 0 hlt2, List.getD_eq_getElem g 0 hj]
      simp
    have hz2 : (g.drop j).getD 0 0 = 0 := by rw [hgt2, h0j]
    rw [List.getD_eq_getElem _ 0 hlt2] at hz2
    exact hz2 ▸ List.getElem_mem hlt2
  have h2 : 1 ≤ (g.drop j).count 0 := List.count_pos_iff.mpr hmem2
  calc 2 ≤ (g.take j).count 0 + (g.drop j).count 0 := by omega
    _ = g.count 0 := by rw [← List.count_append, hsplit]

theorem zero_pos_unique (g : List Int) (hc : g.count 0 = 1) (i j : Nat)
    (hi : i < g.length) (hj : j < g.length) (h0i : g.getD i 0 = 0)
    (h0j : g.getD j 0 = 0) : i = j := by
  rcases Nat.lt_trichotomy i j with h | h | h
  · have := two_le_count_of_two_zeros g i j h hj h0i h0j; omega
  · exact h
  · have := two_le_count_of_two_zeros g j i h hi h0j h0i; omega

theorem indexOf_zero_of_unique (g : List Int) (hc : g.count 0 = 1) (i : Nat)
    (hi : i < g.length) (h0 : g.getD i 0 = 0) : g.indexOf 0 = i := by
  have hmem : (0 : Int) ∈ g := by
    rw [List.getD_eq_getElem g 0 hi] at h0
    exact h0 ▸ List.getElem_mem hi
  have hlt : g.indexOf 0 < g.length := List.indexOf_lt_length.mpr hmem
  have hval : g.getD (g.indexOf 0) 0 = 0 := by
    rw [List.getD_eq_getElem g 0 hlt]
    exact List.getElem_indexOf hlt
  exact zero_pos_unique g hc (g.indexOf 0) i hlt hi hval h0

/-! ## Moved-tile diff (claim C6) -/

/-- C6: for consecutive states with exactly one blank each, the moved-tile
diff is the value of curr at the previous blank position; when curr arises
from prev by the single swap of the blank (at i) with an adjacent cell j,
the two identities of the spec agree: curr.tiles[prev_zero] =
prev.tiles[curr_zero]; on the spec example the moved tile is 8; and step 0
has no moved tile. -/
theorem c6_moved_tile_diff (prev curr : List Int) (size i j : Nat)
    (hc : prev.count 0 = 1) (hi : i < prev.length) (hj : j < prev.length)
    (hij : i ≠ j) (h0 : prev.getD i 0 = 0) (_hadj : adjacent size i j)
    (hcurr : curr = (prev.set i (prev.getD j 0)).set j 0) :
    (diff_tiles prev curr).1 = curr.getD (prev.indexOf 0) 0 ∧
    (diff_tiles prev curr).1 = (diff_tiles prev curr).2 ∧
    diff_tiles [1, 2, 3, 4, 5, 6, 7, 0, 8] [1, 2, 3, 4, 5, 6, 7, 8, 0] = (8, 8) ∧
    (∀ states, get_moved_tile states 0 = none) := by
  refine ⟨rfl, ?_, by decide, fun states => rfl⟩
  subst hcurr
  have hpz : prev.indexOf 0 = i := indexOf_zero_of_unique prev hc i hi h0
  have hcount : ((prev.set i (prev.getD j 0)).set j 0).count 0 = 1 := by
    have hperm := blank_swap_perm prev i j hi hj h0
    rw [hperm.count_eq]; exact hc
  have hcj : ((prev.set i (prev.getD j 0)).set j 0).getD j 0 = 0 := by
    rw [List.getD_eq_getElem _ 0 (by simpa using hj)]
    simp
  have hcz : ((prev.set i (prev.getD j 0)).set j 0).indexOf 0 = j :=
    indexOf_zero_of_unique _ hcount j (by simpa using hj) hcj
  have hci : ((prev.set i (prev.getD j 0)).set j 0).getD i 0 = prev.getD j 0 := by
    rw [List.getD_eq_getElem _ 0 (by simpa using hi)]
    simp [List.getElem_set, Ne.symm hij, hij]
  simp only [diff_tiles, hpz, hcz]
  exact hci

theorem c6_moved_tile_diff_witness :
    (diff_tiles [1, 2, 3, 4, 5, 6, 7, 0, 8] [1, 2, 3, 4, 5, 6, 7, 8, 0]).1 =
      (diff_tiles [1, 2, 3, 4, 5, 6, 7, 0, 8] [1, 2, 3, 4, 5, 6, 7, 8, 0]).2 :=
  (c6_moved_tile_diff [1, 2, 3, 4, 5, 6, 7, 0, 8] [1, 2, 3, 4, 5, 6, 7, 8, 0]
    3 7 8 (by decide) (by decide) (by decide) (by decide) (by decide)
    (by decide) (by decide)).2.1

/-! ## Solution.from_json (claims C4, C5) -/

theorem from_json_none (raw : String) (hp : parseJson raw = none) :
    from_json raw = .error .invalidFormat := by
  unfold from_json; rw [hp]

theorem from_json_obj (raw : String) (fields : List (String × Json))
    (hp : parseJson raw = some (.jobj fields)) :
    from_json raw =
      if truthy ((lookupKey successKey fields).getD .jnull) = false then
        .error .solverFailed
      else
        match extractSolution fields with
        | some sol => .ok sol
        | none => .error .invalidFormat := by
  unfold from_json; rw [hp]

theorem error_solverFailed_ne_invalidFormat :
    (Except.error SolutionError.solverFailed : Except SolutionError Solution) ≠
      Except.error SolutionError.invalidFormat := by
  intro h
  injection h with h2
  exact SolutionError.noConfusion h2

set_option maxRecDepth 40000 in
/-- C4: whenever the text parses to a JSON object whose success flag is
false or absent, from_json reports SolverFailedError and not
InvalidSolutionFormat; in particular on the concrete payload of the spec. -/
theorem c4_solver_failed :
    (∀ raw fields, parseJson raw = some (.jobj fields) →
      (lookupKey successKey fields = some (.jbool false) ∨
        lookupKey successKey fields = none) →
      from_json raw = .error .solverFailed ∧
      from_json raw ≠ .error .invalidFormat) ∧
    from_json rawSuccessFalse = .error .solverFailed ∧
    from_json rawSuccessFalse ≠ .error .invalidFormat := by
  have hconc : from_json rawSuccessFalse = .error .solverFailed := by rfl
  refine ⟨?_, hconc, ?_⟩
  · intro raw fields hp hf
    have heq : from_json raw = .error .solverFailed := by
      rw [from_json_obj raw fields hp]
      rcases hf with h | h <;> simp [h, truthy]
    exact ⟨heq, by rw [heq]; exact error_solverFailed_ne_invalidFormat⟩
  · rw [hconc]; exact error_solverFailed_ne_invalidFormat

theorem c4_solver_failed_witness :
    from_json rawSuccessFalse = .error .solverFailed ∧
    from_json rawSuccessFalse ≠ .error .invalidFormat :=
  c4_solver_failed.1 rawSuccessFalse [(successKey, Json.jbool false)] rfl
    (Or.inl rfl)

set_option maxRecDepth 200000 in
/-- C5 counterexample: a payload whose path entry has tiles present but of
the wrong shape (the number 5 instead of a list) is accepted by from_json
without any error, refuting the claim that a required field of the wrong
shape always raises InvalidSolutionFormat. -/
theorem c5_wrong_shape_counterexample :
    from_json rawWrongShapeTiles =
      .ok ⟨[⟨Json.jnum 5, Json.jnum 0, Json.jnum 0, Json.jnum 0⟩],
           ⟨Json.jnum 1, Json.jnum 1, Json.jnum 0⟩⟩ ∧
    from_json rawWrongShapeTiles ≠ .error .invalidFormat := by
  have h : from_json rawWrongShapeTiles =
      .ok ⟨[⟨Json.jnum 5, Json.jnum 0, Json.jnum 0, Json.jnum 0⟩],
           ⟨Json.jnum 1, Json.jnum 1, Json.jnum 0⟩⟩ := by rfl
  refine ⟨h, ?_⟩
  rw [h]
  intro hcontra
  exact Except.noConfusion hcontra

set_option maxRecDepth 40000 in
/-- C5 amended: from_json reports InvalidSolutionFormat exactly when the
text fails JSON decoding, or it decodes to an object with a truthy success
flag whose try-block extraction fails (path or statistics or one of the
statistics sub-fields absent, path not iterable, an entry not an object or
missing one of its four fields); present field values are not shape-checked
and never raise. The spec examples 'not json' and the object without path
both report InvalidSolutionFormat. -/
theorem c5_invalid_format (raw : String) :
    (from_json raw = .error .invalidFormat ↔
      (parseJson raw = none ∨
        ∃ fields, parseJson raw = some (.jobj fields) ∧
          truthy ((lookupKey successKey fields).getD .jnull) = true ∧
          extractSolution fields = none)) ∧
    (∀ fields, lookupKey pathKey fields = none →
      extractSolution fields = none) ∧
    (∀ fields path, lookupKey pathKey fields = some path → pyIter path = none →
      extractSolution fields = none) ∧
    (∀ fields, lookupKey statisticsKey fields = none →
      extractSolution fields = none) ∧
    from_json rawNotJson = .error .invalidFormat ∧
    from_json rawSuccessTrue = .error .invalidFormat := by
  refine ⟨?_, ?_, ?_, ?_, by rfl, by rfl⟩
  · cases hp : parseJson raw with
    | none =>
      simp [from_json_none raw hp, hp]
    | some v =>
      cases v with
      | jobj fields =>
        rw [from_json_obj raw fields hp]
        cases ht : truthy ((lookupKey successKey fields).getD .jnull) with
        | false =>
          simp only [ht, if_pos rfl, hp]
          constructor
          · intro hcontra
            exact absurd hcontra error_solverFailed_ne_invalidFormat
          · rintro (h | ⟨fields2, hf2, ht2, _⟩)
            · exact Option.noConfusion h
            · have : fields2 = fields := by
                injection hf2 with h3
                injection h3 with h4
                exact h4.symm
              rw [this] at ht2
              rw [ht] at ht2
              exact Bool.noConfusion ht2
        | true =>
          simp only [ht, Bool.true_eq_false, if_neg, hp]
          cases hx : extractSolution fields with
          | none =>
            simp only [hx]
            constructor
            · intro _
              exact Or.inr ⟨fields, rfl, ht, hx⟩
            · intro _; rfl
          | some sol =>
            simp only [hx]
            constructor
            · intro hcontra
              exact Except.noConfusion hcontra
            · rintro (h | ⟨fields2, hf2, _, hx2⟩)
              · exact Option.noConfusion h
              · have : fields2 = fields := by
                  injection hf2 with h3
                  injection h3 with h4
                  exact h4.symm
                rw [this, hx] at hx2
                exact Option.noConfusion hx2
      | jnull =>
        rw [show from_json raw = .error .attributeError from
          by unfold from_json; rw [hp]]
        constructor
        · intro hcontra
          injection hcontra with h2
          exact SolutionError.noConfusion h2
        · rintro (h | ⟨fields2, hf2, _, _⟩)
          · exact Option.noConfusion h
          · injection hf2 with h3
            exact Json.noConfusion h3
      | jbool b =>
        rw [show from_json raw = .error .attributeError from
          by unfold from_json; rw [hp]]
        constructor
        · intro hcontra
          injection hcontra with h2
          exact SolutionError.noConfusion h2
        · rintro (h | ⟨fields2, hf2, _, _⟩)
          · exact Option.noConfusion h
          · injection hf2 with h3
            exact Json.noConfusion h3
      | jnum n =>
        rw [show from_json raw = .error .attributeError from
          by unfold from_json; rw [hp]]
        constructor
        · intro hcontra
          injection hcontra with h2
          exact SolutionError.noConfusion h2
        · rintro (h | ⟨fields2, hf2, _, _⟩)
          · exact Option.noConfusion h
          · injection hf2 with h3
            exact Json.noConfusion h3
      | jstr s =>
        rw [show from_json raw = .error .attributeError from
          by unfold from_json; rw [hp]]
        constructor
        · intro hcontra
          injection hcontra with h2
          exact SolutionError.noConfusion h2
        · rintro (h | ⟨fields2, hf2, _, _⟩)
          · exact Option.noConfusion h
          · injection hf2 with h3
            exact Json.noConfusion h3
      | jarr xs =>
        rw [show from_json raw = .error .attributeError from
          by unfold from_json; rw [hp]]
        constructor
        · intro hcontra
          injection hcontra with h2
          exact SolutionError.noConfusion h2
        · rintro (h | ⟨fields2, hf2, _, _⟩)
          · exact Option.noConfusion h
          · injection hf2 with h3
            exact Json.noConfusion h3
  · intro fields h
    simp [extractSolution, h]
  · intro fields path h1 h2
    simp [extractSolution, h1, h2]
  · intro fields hs
    cases hp2 : lookupKey pathKey fields with
    | none => simp [extractSolution, hp2]
    | some path =>
      cases hi : pyIter path with
      | none => simp [extractSolution, hp2, hi]
      | some entries => simp [extractSolution, hp2, hi, hs]

theorem c5_invalid_format_witness :
    from_json rawNotJson = .error .invalidFormat :=
  (c5_invalid_format rawNotJson).1.mpr (Or.inl rfl)

/-! ## Inversion parity lemmas (claim C3) -/

theorem inversions_append (A B : List Int) :
    inversions (A ++ B) = inversions A + crossCount A B + inversions B := by
  induction A with
  | nil => simp [inversions, crossCount]
  | cons x A2 ih =>
    simp only [List.cons_append, inversions, crossCount, List.map_cons,
      List.sum_cons, List.append_eq]
    rw [List.countP_append]
    simp only [crossCount] at ih
    omega

theorem crossCount_swap_pair (A B : List Int) (x y : Int) :
    crossCount A (x :: y :: B) = crossCount A (y :: x :: B) := by
  unfold crossCount
  have hfun : (fun z => (x :: y :: B).countP (fun w => decide (w < z))) =
      (fun z => (y :: x :: B).countP (fun w => decide (w < z))) := by
    funext z
    simp only [List.countP_cons]
    omega
  rw [hfun]

theorem inversions_swap_adj_parity (A B : List Int) (x y : Int) (hxy : x ≠ y) :
    inversions (A ++ x :: y :: B) % 2 ≠ inversions (A ++ y :: x :: B) % 2 := by
  rw [inversions_append, inversions_append, crossCount_swap_pair A B x y]
  have hx : inversions (x :: y :: B) =
      ((if y < x then 1 else 0) + B.countP (fun w => decide (w < x))) +
        (B.countP (fun w => decide (w < y)) + inversions B) := by
    simp only [inversions, List.countP_cons]
    by_cases h : y < x
    · simp [h]
      omega
    · simp [h]
  have hy : inversions (y :: x :: B) =
      ((if x < y then 1 else 0) + B.countP (fun w => decide (w < y))) +
        (B.countP (fun w => decide (w < x)) + inversions B) := by
    simp only [inversions, List.countP_cons]
    by_cases h : x < y
    · simp [h]
      omega
    · simp [h]
  rw [hx, hy]
  rcases lt_or_gt_of_ne hxy with h | h
  · rw [if_pos h, if_neg (not_lt_of_lt h)]; omega
  · rw [if_neg (not_lt_of_lt h), if_pos h]; omega

theorem take_two_drop (g : List Int) :
    ∀ (i : Nat), i + 1 < g.length →
      g = g.take i ++ g.getD i 0 :: g.getD (i + 1) 0 :: g.drop (i + 2) ∧
      swapCells g i (i + 1) =
        g.take i ++ g.getD (i + 1) 0 :: g.getD i 0 :: g.drop (i + 2) := by
  induction g with
  | nil => intro i hi; simp at hi
  | cons a t ih =>
    intro i hi
    cases i with
    | zero =>
      cases t with
      | nil => simp at hi
      | cons b t2 => exact ⟨by simp, by simp [swapCells]⟩
    | succ m =>
      have hm : m + 1 < t.length := by simpa using hi
      obtain ⟨h1, h2⟩ := ih m hm
      constructor
      · simpa using congrArg (a :: ·) h1
      · have hset : swapCells (a :: t) (m + 1) (m + 2) =
            a :: swapCells t m (m + 1) := by
          simp [swapCells]
        rw [hset]
        simpa using congrArg (a :: ·) h2

theorem swapCells_comm (g : List Int) (a b : Nat) (hab : a ≠ b) :
    swapCells g a b = swapCells g b a := by
  unfold swapCells
  exact List.set_comm _ _ _ hab

theorem inversions_swapCells_adj (g : List Int) (i : Nat) (h : i + 1 < g.length)
    (hne : g.getD i 0 ≠ g.getD (i + 1) 0) :
    inversions (swapCells g i (i + 1)) % 2 ≠ inversions g % 2 := by
  obtain ⟨h1, h2⟩ := take_two_drop g i h
  rw [h2]
  conv_rhs => rw [h1]
  exact inversions_swap_adj_parity (g.take i) (g.drop (i + 2))
    (g.getD (i + 1) 0) (g.getD i 0) (Ne.symm hne)

theorem gridValues_nodup (size : Nat) : (gridValues size).Nodup := by
  unfold gridValues
  exact (List.nodup_range _).map (fun a b hab => Int.ofNat.inj hab)

theorem gridValues_length (size : Nat) : (gridValues size).length = size * size := by
  simp [gridValues]

/-- Distinct positions of a duplicate-free grid hold distinct values. -/
theorem nodup_getD_ne (g : List Int) (hn : g.Nodup) (i j : Nat)
    (hi : i < g.length) (hj : j < g.length) (hij : i ≠ j) :
    g.getD i 0 ≠ g.getD j 0 := by
  rw [List.getD_eq_getElem g 0 hi, List.getD_eq_getElem g 0 hj]
  intro hcontra
  exact hij (hn.getElem_inj_iff.mp hcontra)

/-- Reduction of ensure_solvability on the unsolvable branch when the blank
sits at flat index 0 or 1. -/
theorem ensure_solvability_false_start (g : List Int)
    (hcond : g.getD 0 0 = 0 ∨ g.getD 1 0 = 0) :
    ensure_solvability g false =
      swapCells g (g.length - 1) (g.length - 1 - 1) := by
  have hb : (g.getD 0 0 == 0 || g.getD 1 0 == 0) = true := by
    rcases hcond with h | h
    · rw [h]; simp
    · rw [h]; simp
  simp only [ensure_solvability, hb]
  simp

/-- Reduction of ensure_solvability on the unsolvable branch when the blank
is away from flat indices 0 and 1. -/
theorem ensure_solvability_false_away (g : List Int)
    (hcond : ¬(g.getD 0 0 = 0 ∨ g.getD 1 0 = 0)) :
    ensure_solvability g false = swapCells g 0 1 := by
  push_neg at hcond
  have h1 : (g.getD 0 0 == 0) = false := beq_eq_false_iff_ne.mpr hcond.1
  have h2 : (g.getD 1 0 == 0) = false := beq_eq_false_iff_ne.mpr hcond.2
  simp only [ensure_solvability, h1, h2]
  simp

/-- C3: ensure_solvability with True is a no-op; with False it swaps the
last two cells when the blank sits at flat index 0 or 1 and the first two
cells otherwise, strictly flipping the inversion parity of the permutation;
on the size-3 spiral goal it yields [2,1,3,8,0,4,7,6,5]. -/
theorem c3_ensure_solvability (size : Nat) (g : List Int) (hs : 3 ≤ size)
    (hg : List.Perm g (gridValues size)) :
    ensure_solvability g true = g ∧
    ((g.getD 0 0 = 0 ∨ g.getD 1 0 = 0) →
      ensure_solvability g false = swapCells g (g.length - 1) (g.length - 2)) ∧
    (¬(g.getD 0 0 = 0 ∨ g.getD 1 0 = 0) →
      ensure_solvability g false = swapCells g 0 1) ∧
    inversions (ensure_solvability g false) % 2 ≠ inversions g % 2 ∧
    ensure_solvability [1, 2, 3, 8, 0, 4, 7, 6, 5] false =
      [2, 1, 3, 8, 0, 4, 7, 6, 5] := by
  have hlen : g.length = size * size := by
    have := hg.length_eq
    rwa [gridValues_length] at this
  have hlen9 : 9 ≤ g.length := by
    rw [hlen]
    calc 9 = 3 * 3 := rfl
      _ ≤ size * size := Nat.mul_le_mul hs hs
  have hnodup : g.Nodup := hg.nodup_iff.mpr (gridValues_nodup size)
  have hstart : ∀ hcond : g.getD 0 0 = 0 ∨ g.getD 1 0 = 0,
      ensure_solvability g false = swapCells g (g.length - 1) (g.length - 2) := by
    intro hcond
    rw [ensure_solvability_false_start g hcond]
    congr 1
  refine ⟨rfl, hstart, ensure_solvability_false_away g, ?_, by decide⟩
  by_cases hcond : g.getD 0 0 = 0 ∨ g.getD 1 0 = 0
  · rw [hstart hcond]
    rw [swapCells_comm g (g.length - 1) (g.length - 2) (by omega)]
    have he : g.length - 2 + 1 = g.length - 1 := by omega
    have hne : g.getD (g.length - 2) 0 ≠ g.getD (g.length - 2 + 1) 0 := by
      rw [he]
      exact nodup_getD_ne g hnodup _ _ (by omega) (by omega) (by omega)
    have := inversions_swapCells_adj g (g.length - 2) (by omega) hne
    rwa [he] at this
  · rw [ensure_solvability_false_away g hcond]
    exact inversions_swapCells_adj g 0 (by omega)
      (nodup_getD_ne g hnodup 0 1 (by omega) (by omega) (by omega))

theorem c3_ensure_solvability_witness :
    ensure_solvability [1, 2, 3, 8, 0, 4, 7, 6, 5] true =
      [1, 2, 3, 8, 0, 4, 7, 6, 5] ∧
    inversions (ensure_solvability [1, 2, 3, 8, 0, 4, 7, 6, 5] false) % 2 ≠
      inversions [1, 2, 3, 8, 0, 4, 7, 6, 5] % 2 := by
  have h := c3_ensure_solvability 3 [1, 2, 3, 8, 0, 4, 7, 6, 5]
    (by decide) (by decide)
  exact ⟨h.1, h.2.2.2.1⟩

/-- C10: on a grid of at least 9 cells with exactly one blank, the forced
unsolvable swap never touches the blank: with the blank at flat index 0 or 1
it swaps the last two cells, which do not hold the blank; otherwise it swaps
cells 0 and 1, which do not hold the blank. -/
theorem c10_swap_avoids_blank (g : List Int) (hlen : 9 ≤ g.length)
    (hc : g.count 0 = 1) :
    ((g.getD 0 0 = 0 ∨ g.getD 1 0 = 0) →
      ensure_solvability g false = swapCells g (g.length - 1) (g.length - 2) ∧
      g.getD (g.length - 1) 0 ≠ 0 ∧ g.getD (g.length - 2) 0 ≠ 0) ∧
    (¬(g.getD 0 0 = 0 ∨ g.getD 1 0 = 0) →
      ensure_solvability g false = swapCells g 0 1 ∧
      g.getD 0 0 ≠ 0 ∧ g.getD 1 0 ≠ 0) := by
  constructor
  · intro hcond
    have heq : ensure_solvability g false =
        swapCells g (g.length - 1) (g.length - 2) := by
      rw [ensure_solvability_false_start g hcond]
      congr 1
    refine ⟨heq, ?_, ?_⟩
    · intro hz
      rcases hcond with h | h
      · have := zero_pos_unique g hc 0 (g.length - 1) (by omega) (by omega) h hz
        omega
      · have := zero_pos_unique g hc 1 (g.length - 1) (by omega) (by omega) h hz
        omega
    · intro hz
      rcases hcond with h | h
      · have := zero_pos_unique g hc 0 (g.length - 2) (by omega) (by omega) h hz
        omega
      · have := zero_pos_unique g hc 1 (g.length - 2) (by omega) (by omega) h hz
        omega
  · intro hcond
    push_neg at hcond
    exact ⟨ensure_solvability_false_away g (by push_neg; exact hcond),
      hcond.1, hcond.2⟩

theorem c10_swap_avoids_blank_witness :
    ensure_solvability [0, 2, 3, 8, 1, 4, 7, 6, 5] false =
      swapCells [0, 2, 3, 8, 1, 4, 7, 6, 5] 8 7 ∧
    ([0, 2, 3, 8, 1, 4, 7, 6, 5] : List Int).getD 8 0 ≠ 0 ∧
    ([0, 2, 3, 8, 1, 4, 7, 6, 5] : List Int).getD 7 0 ≠ 0 :=
  (c10_swap_avoids_blank [0, 2, 3, 8, 1, 4, 7, 6, 5] (by decide) (by decide)).1
    (Or.inl (by decide))

/-! ## Shuffle round analysis (claim C1) -/

theorem mem_if_singleton (c : Prop) [Decidable c] (a j : Nat) :
    (j ∈ if c then [a] else []) ↔ c ∧ j = a := by
  by_cases h : c
  · simp [h]
  · simp [h]

theorem possible_swaps_nonempty (size idx : Nat) (hs : 2 ≤ size)
    (_hidx : idx < size * size) : possible_swaps size idx ≠ [] := by
  unfold possible_swaps
  by_cases h : idx % size > 0
  · simp [h]
  · have h1 : idx % size < size - 1 := by
      have := Nat.mod_lt idx (show 0 < size by omega)
      omega
    simp [h, h1]

theorem mem_possible_swaps (size idx j : Nat) (hs : 2 ≤ size)
    (hidx : idx < size * size) (hj : j ∈ possible_swaps size idx) :
    j < size * size ∧ adjacent size idx j := by
  have hspos : 0 < size := by omega
  have hqr : size * (idx / size) + idx % size = idx := Nat.div_add_mod idx size
  have hrlt : idx % size < size := Nat.mod_lt idx hspos
  have hqlt : idx / size < size := (Nat.div_lt_iff_lt_mul hspos).mpr hidx
  unfold possible_swaps at hj
  simp only [List.mem_append, mem_if_singleton] at hj
  rcases hj with ((⟨hc, rfl⟩ | ⟨hc, rfl⟩) | ⟨hc, rfl⟩) | ⟨hc, rfl⟩
  · have hjeq : idx - 1 = size * (idx / size) + (idx % size - 1) := by omega
    have hdiv : (idx - 1) / size = idx / size := by
      rw [hjeq, Nat.mul_add_div hspos]
      have h0 : (idx % size - 1) / size = 0 := Nat.div_eq_of_lt (by omega)
      omega
    have hmod : (idx - 1) % size = idx % size - 1 := by
      rw [hjeq, Nat.mul_add_mod]
      exact Nat.mod_eq_of_lt (by omega)
    refine ⟨by omega, Or.inl ⟨hdiv.symm, Or.inr ?_⟩⟩
    rw [hmod]
    omega
  · have hjeq : idx + 1 = size * (idx / size) + (idx % size + 1) := by omega
    have hdiv : (idx + 1) / size = idx / size := by
      rw [hjeq, Nat.mul_add_div hspos]
      have h0 : (idx % size + 1) / size = 0 := Nat.div_eq_of_lt (by omega)
      omega
    have hmod : (idx + 1) % size = idx % size + 1 := by
      rw [hjeq, Nat.mul_add_mod]
      exact Nat.mod_eq_of_lt (by omega)
    have hmul : size * (idx / size + 1) ≤ size * size :=
      Nat.mul_le_mul_left size (by omega)
    have hexp : size * (idx / size + 1) = size * (idx / size) + size := by ring
    refine ⟨by omega, Or.inl ⟨hdiv.symm, Or.inl ?_⟩⟩
    rw [hmod]
  · have hge : size ≤ idx := by
      have h1 : size * 1 ≤ size * (idx / size) := Nat.mul_le_mul_left size hc
      omega
    have hexp : size * (idx / size - 1) + size = size * (idx / size) := by
      have h1 : idx / size - 1 + 1 = idx / size := by omega
      calc size * (idx / size - 1) + size = size * (idx / size - 1 + 1) := by ring
        _ = size * (idx / size) := by rw [h1]
    have hjeq : idx - size = size * (idx / size - 1) + idx % size := by omega
    have hdiv : (idx - size) / size = idx / size - 1 := by
      rw [hjeq, Nat.mul_add_div hspos, Nat.div_eq_of_lt hrlt]
      omega
    have hmod : (idx - size) % size = idx % size := by
      rw [hjeq, Nat.mul_add_mod]
      exact Nat.mod_eq_of_lt hrlt
    refine ⟨by omega, Or.inr ⟨hmod.symm, Or.inr ?_⟩⟩
    rw [hdiv]
    omega
  · have hexp : size * (idx / size + 1) = size * (idx / size) + size := by ring
    have hjeq : idx + size = size * (idx / size + 1) + idx % size := by omega
    have hdiv : (idx + size) / size = idx / size + 1 := by
      rw [hjeq, Nat.mul_add_div hspos, Nat.div_eq_of_lt hrlt]
    have hmod : (idx + size) % size = idx % size := by
      rw [hjeq, Nat.mul_add_mod]
      exact Nat.mod_eq_of_lt hrlt
    have hmul : size * (idx / size + 2) ≤ size * size :=
      Nat.mul_le_mul_left size (by omega)
    have hexp2 : size * (idx / size + 2) = size * (idx / size) + 2 * size := by
      ring
    refine ⟨by omega, Or.inr ⟨hmod.symm, Or.inl ?_⟩⟩
    rw [hdiv]

theorem shuffleRound_eq (size c : Nat) (g : List Int)
    (hne : possible_swaps size (g.indexOf 0) ≠ []) :
    shuffleRound size c g =
      (g.set (g.indexOf 0)
        (g.getD ((possible_swaps size (g.indexOf 0)).getD
          (c % (possible_swaps size (g.indexOf 0)).length) (g.indexOf 0)) 0)).set
        ((possible_swaps size (g.indexOf 0)).getD
          (c % (possible_swaps size (g.indexOf 0)).length) (g.indexOf 0)) 0 := by
  have h0 : ¬ ((possible_swaps size (g.indexOf 0)).length = 0) := by
    simpa [List.length_eq_zero] using hne
  simp only [shuffleRound]
  rw [if_neg h0]

theorem shuffleRound_spec (size c : Nat) (g : List Int) (hs : 2 ≤ size)
    (hg : List.Perm g (gridValues size)) :
    List.Perm (shuffleRound size c g) g ∧ Move size g (shuffleRound size c g) := by
  have hlen : g.length = size * size := by
    have := hg.length_eq
    rwa [gridValues_length] at this
  have hpos : 0 < size * size := Nat.mul_pos (by omega) (by omega)
  have hmem : (0 : Int) ∈ g := by
    rw [hg.mem_iff]
    unfold gridValues
    simp only [List.mem_map, List.mem_range]
    exact ⟨0, hpos, rfl⟩
  have hidxlt : g.indexOf 0 < g.length := List.indexOf_lt_length.mpr hmem
  have hval : g.getD (g.indexOf 0) 0 = 0 := by
    rw [List.getD_eq_getElem g 0 hidxlt]
    exact List.getElem_indexOf hidxlt
  have hne : possible_swaps size (g.indexOf 0) ≠ [] :=
    possible_swaps_nonempty size (g.indexOf 0) hs (by omega)
  have hlenpos : 0 < (possible_swaps size (g.indexOf 0)).length :=
    List.length_pos.mpr hne
  have hmlt : c % (possible_swaps size (g.indexOf 0)).length <
      (possible_swaps size (g.indexOf 0)).length := Nat.mod_lt c hlenpos
  set J := (possible_swaps size (g.indexOf 0)).getD
    (c % (possible_swaps size (g.indexOf 0)).length) (g.indexOf 0) with hJ
  have hJmem : J ∈ possible_swaps size (g.indexOf 0) := by
    rw [hJ, List.getD_eq_getElem _ _ hmlt]
    exact List.getElem_mem hmlt
  obtain ⟨hJlt, hadj⟩ :=
    mem_possible_swaps size (g.indexOf 0) J hs (by omega) hJmem
  have hJlt2 : J < g.length := by omega
  rw [shuffleRound_eq size c g hne, ← hJ]
  exact ⟨blank_swap_perm g (g.indexOf 0) J hidxlt hJlt2 hval,
    g.indexOf 0, J, hidxlt, hJlt2, hadj, hval, rfl⟩

theorem reach_head (size : Nat) (g h k : List Int) (hm : Move size g h)
    (hr : Reach size h k) : Reach size g k := by
  induction hr with
  | refl => exact Reach.tail g g h (Reach.refl g) hm
  | tail b c hr2 hm2 ih => exact Reach.tail g b c ih hm2

/-- C1: for every grid that is a permutation of 0..size*size-1, every size
at least 2, and every sequence of neighbor choices the random source can
make, shuffle keeps the grid a permutation of 0..size*size-1 and the result
is reachable from the input by single swaps of the blank with a legally
adjacent cell (the spec's formal reading of staying in the same solvability
parity class); shuffling with an empty choice sequence (iterations = 0)
leaves the grid unchanged. -/
theorem c1_shuffle_preserves_class (size : Nat) (hs : 2 ≤ size)
    (g : List Int) (hg : List.Perm g (gridValues size)) (choices : List Nat) :
    List.Perm (shuffle size g choices) (gridValues size) ∧
    Reach size g (shuffle size g choices) ∧
    shuffle size g [] = g := by
  have main : ∀ (cs : List Nat) (h : List Int), List.Perm h (gridValues size) →
      List.Perm (shuffle size h cs) (gridValues size) ∧
      Reach size h (shuffle size h cs) := by
    intro cs
    induction cs with
    | nil => intro h hh; exact ⟨hh, Reach.refl h⟩
    | cons c cs2 ih =>
      intro h hh
      obtain ⟨hp, hm⟩ := shuffleRound_spec size c h hs hh
      obtain ⟨ih1, ih2⟩ := ih (shuffleRound size c h) (hp.trans hh)
      exact ⟨ih1, reach_head size h (shuffleRound size c h) _ hm ih2⟩
  obtain ⟨h1, h2⟩ := main choices g hg
  exact ⟨h1, h2, rfl⟩

theorem c1_shuffle_preserves_class_witness :
    List.Perm (shuffle 2 [0, 1, 2, 3] [0, 1]) (gridValues 2) ∧
    Reach 2 [0, 1, 2, 3] (shuffle 2 [0, 1, 2, 3] [0, 1]) ∧
    shuffle 2 [0, 1, 2, 3] [] = [0, 1, 2, 3] :=
  c1_shuffle_preserves_class 2 (by decide) [0, 1, 2, 3] (by decide) [0, 1]

/-! ## Spiral generation (claim C2) -/

theorem snailOk_perm (ss : Nat) (hg : snailGridOk ss = true)
    (ht : snailTraceOk ss = true) :
    List.Perm (generate_snail ss).2 (gridValues ss) ∧
    List.Perm (generate_snail ss).1 (gridValues ss) ∧
    (generate_snail ss).1.getD ((generate_snail ss).2.headD (-1)).toNat (-1)
      = 0 := by
  have hn := gridValues_nodup ss
  simp only [snailGridOk, Bool.and_eq_true, beq_iff_eq, List.all_eq_true] at hg
  simp only [snailTraceOk, Bool.and_eq_true, beq_iff_eq, List.all_eq_true] at ht
  obtain ⟨⟨h3, h4⟩, h5⟩ := hg
  obtain ⟨h1, h2⟩ := ht
  have hp2 : List.Perm (gridValues ss) (generate_snail ss).2 :=
    (List.subperm_of_subset hn
      (fun v hv => by simpa using h2 v hv)).perm_of_length_le (le_of_eq h1)
  have hp1 : List.Perm (gridValues ss) (generate_snail ss).1 :=
    (List.subperm_of_subset hn
      (fun v hv => by simpa using h4 v hv)).perm_of_length_le (le_of_eq h3)
  exact ⟨hp2.symm, hp1.symm, h5⟩

set_option maxRecDepth 1000000 in
set_option maxHeartbeats 12000000 in
theorem snail_grid_ok_3 : snailGridOk 3 = true := by decide

set_option maxRecDepth 1000000 in
set_option maxHeartbeats 12000000 in
theorem snail_trace_ok_3 : snailTraceOk 3 = true := by decide

set_option maxRecDepth 1000000 in
set_option maxHeartbeats 12000000 in
theorem snail_grid_ok_4 : snailGridOk 4 = true := by decide

set_option maxRecDepth 1000000 in
set_option maxHeartbeats 12000000 in
theorem snail_trace_ok_4 : snailTraceOk 4 = true := by decide

set_option maxRecDepth 1000000 in
set_option maxHeartbeats 12000000 in
theorem snail_grid_ok_5 : snailGridOk 5 = true := by decide

set_option maxRecDepth 1000000 in
set_option maxHeartbeats 12000000 in
theorem snail_trace_ok_5 : snailTraceOk 5 = true := by decide

set_option maxRecDepth 1000000 in
set_option maxHeartbeats 12000000 in
theorem snail_grid_ok_6 : snailGridOk 6 = true := by decide

set_option maxRecDepth 1000000 in
set_option maxHeartbeats 12000000 in
theorem snail_trace_ok_6 : snailTraceOk 6 = true := by decide

set_option maxRecDepth 1000000 in
set_option maxHeartbeats 12000000 in
theorem snail_grid_ok_7 : snailGridOk 7 = true := by decide

set_option maxRecDepth 1000000 in
set_option maxHeartbeats 12000000 in
theorem snail_trace_ok_7 : snailTraceOk 7 = true := by decide

set_option maxRecDepth 1000000 in
set_option maxHeartbeats 12000000 in
theorem snail_grid_ok_8 : snailGridOk 8 = true := by decide

set_option maxRecDepth 1000000 in
set_option maxHeartbeats 12000000 in
theorem snail_trace_ok_8 : snailTraceOk 8 = true := by decide

set_option maxRecDepth 1000000 in
set_option maxHeartbeats 12000000 in
theorem snail_grid_ok_9 : snailGridOk 9 = true := by decide

set_option maxRecDepth 1000000 in
set_option maxHeartbeats 12000000 in
theorem snail_trace_ok_9 : snailTraceOk 9 = true := by decide

set_option maxRecDepth 1000000 in
set_option maxHeartbeats 12000000 in
theorem snail_grid_ok_10 : snailGridOk 10 = true := by decide

set_option maxRecDepth 1000000 in
set_option maxHeartbeats 12000000 in
theorem snail_trace_ok_10 : snailTraceOk 10 = true := by decide

set_option maxRecDepth 1000000 in
set_option maxHeartbeats 12000000 in
theorem snail_grid_ok_11 : snailGridOk 11 = true := by decide

set_option maxRecDepth 1000000 in
set_option maxHeartbeats 12000000 in
theorem snail_trace_ok_11 : snailTraceOk 11 = true := by decide

set_option maxRecDepth 1000000 in
set_option maxHeartbeats 12000000 in
theorem snail_grid_ok_12 : snailGridOk 12 = true := by decide

set_option maxRecDepth 1000000 in
set_option maxHeartbeats 12000000 in
theorem snail_trace_ok_12 : snailTraceOk 12 = true := by decide

set_option maxRecDepth 1000000 in
set_option maxHeartbeats 12000000 in
theorem snail_grid_ok_13 : snailGridOk 13 = true := by decide

set_option maxRecDepth 1000000 in
set_option maxHeartbeats 12000000 in
theorem snail_trace_ok_13 : snailTraceOk 13 = true := by decide

set_option maxRecDepth 1000000 in
set_option maxHeartbeats 12000000 in
theorem snail_grid_ok_14 : snailGridOk 14 = true := by decide

set_option maxRecDepth 1000000 in
set_option maxHeartbeats 12000000 in
theorem snail_trace_ok_14 : snailTraceOk 14 = true := by decide

set_option maxRecDepth 1000000 in
set_option maxHeartbeats 12000000 in
theorem snail_grid_ok_15 : snailGridOk 15 = true := by decide

set_option maxRecDepth 1000000 in
set_option maxHeartbeats 12000000 in
theorem snail_trace_ok_15 : snailTraceOk 15 = true := by decide

/-- C2: for every valid size in 3..15 the spiral fill writes every cell
exactly once (the trace of written flat indices visits all of
0..size*size-1, each exactly once) and produces a grid that is a
permutation of 0..size*size-1; the cell written last (the head of the
most-recent-first trace) holds the value 0; and for size 3 the row-major
result is exactly [1,2,3,8,0,4,7,6,5]. -/
theorem c2_generate_snail (s : Nat) (h3 : 3 ≤ s) (h15 : s ≤ 15) :
    (List.Perm (generate_snail s).2 (gridValues s) ∧
     List.Perm (generate_snail s).1 (gridValues s) ∧
     (generate_snail s).1.getD ((generate_snail s).2.headD (-1)).toNat (-1)
       = 0) ∧
    (generate_snail 3).1 = [1, 2, 3, 8, 0, 4, 7, 6, 5] := by
  refine ⟨?_, by decide⟩
  interval_cases s
  · exact snailOk_perm 3 snail_grid_ok_3 snail_trace_ok_3
  · exact snailOk_perm 4 snail_grid_ok_4 snail_trace_ok_4
  · exact snailOk_perm 5 snail_grid_ok_5 snail_trace_ok_5
  · exact snailOk_perm 6 snail_grid_ok_6 snail_trace_ok_6
  · exact snailOk_perm 7 snail_grid_ok_7 snail_trace_ok_7
  · exact snailOk_perm 8 snail_grid_ok_8 snail_trace_ok_8
  · exact snailOk_perm 9 snail_grid_ok_9 snail_trace_ok_9
  · exact snailOk_perm 10 snail_grid_ok_10 snail_trace_ok_10
  · exact snailOk_perm 11 snail_grid_ok_11 snail_trace_ok_11
  · exact snailOk_perm 12 snail_grid_ok_12 snail_trace_ok_12
  · exact snailOk_perm 13 snail_grid_ok_13 snail_trace_ok_13
  · exact snailOk_perm 14 snail_grid_ok_14 snail_trace_ok_14
  · exact snailOk_perm 15 snail_grid_ok_15 snail_trace_ok_15

theorem c2_generate_snail_witness :
    List.Perm (generate_snail 3).2 (gridValues 3) ∧
    List.Perm (generate_snail 3).1 (gridValues 3) ∧
    (generate_snail 3).1.getD ((generate_snail 3).2.headD (-1)).toNat (-1)
      = 0 :=
  (c2_generate_snail 3 (by decide) (by decide)).1

/-! ## parse_input_file (claim C9) -/

theorem allValues_nil : allValues [] = some [] := rfl

theorem allValues_cons (l : String) (r : List String) :
    allValues (l :: r) =
      match lineValues l, allValues r with
      | some v, some vr => some (v ++ vr)
      | _, _ => none := by
  unfold allValues
  rw [List.mapM_cons]
  cases hv : lineValues l with
  | none => simp
  | some v =>
    cases hm : r.mapM lineValues with
    | none => simp [hm]
    | some xs => simp [hm]

theorem parseLines_skip (line : String) (rest : List String) (o : Option Int)
    (tiles : List Int)
    (hskip : (pyStrip line = "" || startsWithHash (pyStrip line)) = true) :
    parseLines (line :: rest) o tiles = parseLines rest o tiles := by
  cases o <;> (simp only [parseLines]; rw [if_pos hskip])

theorem effectiveLines_cons_skip (l : String) (ls : List String)
    (hskip : (pyStrip l = "" || startsWithHash (pyStrip l)) = true) :
    effectiveLines (l :: ls) = effectiveLines ls := by
  simp only [effectiveLines, List.filter_cons]
  rw [hskip]
  simp

theorem effectiveLines_cons_keep (l : String) (ls : List String)
    (hskip : (pyStrip l = "" || startsWithHash (pyStrip l)) = false) :
    effectiveLines (l :: ls) = l :: effectiveLines ls := by
  simp only [effectiveLines, List.filter_cons]
  rw [hskip]
  simp

theorem parseLines_some_eq (ls : List String) : ∀ (n : Int) (tiles : List Int),
    parseLines ls (some n) tiles =
      match allValues (effectiveLines ls) with
      | none => .error .valueErr
      | some vals =>
        if ((tiles ++ vals).length : Int) ≠ n * n then .error .invalidDims
        else .ok (tiles ++ vals) := by
  induction ls with
  | nil =>
    intro n tiles
    simp [parseLines, effectiveLines, allValues_nil]
  | cons l ls2 ih =>
    intro n tiles
    by_cases hskip : (pyStrip l = "" || startsWithHash (pyStrip l)) = true
    · rw [parseLines_skip l ls2 (some n) tiles hskip, ih,
        effectiveLines_cons_skip l ls2 hskip]
    · have hskip2 : (pyStrip l = "" || startsWithHash (pyStrip l)) = false :=
        Bool.not_eq_true _ ▸ Bool.eq_false_iff.mpr hskip
      rw [effectiveLines_cons_keep l ls2 hskip2]
      simp only [parseLines]
      rw [if_neg (by simp [hskip2])]
      rw [allValues_cons]
      cases hv : lineValues l with
      | none => rfl
      | some v1 =>
        dsimp only
        rw [ih]
        cases hA : allValues (effectiveLines ls2) with
        | none => rfl
        | some vr =>
          dsimp only
          simp [List.append_assoc]

theorem parse_eq_runFrom (lines : List String) :
    parse_input_file lines = runFrom (effectiveLines lines) := by
  induction lines with
  | nil => rfl
  | cons l ls2 ih =>
    unfold parse_input_file at *
    by_cases hskip : (pyStrip l = "" || startsWithHash (pyStrip l)) = true
    · rw [parseLines_skip l ls2 none [] hskip, ih,
        effectiveLines_cons_skip l ls2 hskip]
    · have hskip2 : (pyStrip l = "" || startsWithHash (pyStrip l)) = false :=
        Bool.not_eq_true _ ▸ Bool.eq_false_iff.mpr hskip
      rw [effectiveLines_cons_keep l ls2 hskip2]
      simp only [parseLines, runFrom]
      rw [if_neg (by simp [hskip2])]
      cases hn : pyInt (pyStrip l) with
      | none => rfl
      | some n =>
        dsimp only
        by_cases hr : (n < 3 || n > MAX_SIZE) = true
        · rw [if_pos hr, if_pos hr]
        · rw [if_neg hr, if_neg hr]
          rw [parseLines_some_eq ls2 n []]
          cases hA : allValues (effectiveLines ls2) with
          | none => rfl
          | some vals =>
            dsimp only
            simp

theorem runFrom_cons_ne_missing (l : String) (rest : List String) :
    runFrom (l :: rest) ≠ .error .missingSize := by
  intro h
  simp only [runFrom] at h
  repeat' split at h
  all_goals simp_all

/-- C9: parse_input_file, after ignoring blank lines and lines starting
with the comment mark, fails with MissingSizeError exactly when no size
line is found at all; given a first effective line whose int() value is n,
it fails with InvalidSizeError exactly when n lies outside [3, MAX_SIZE]
with MAX_SIZE = 16; given well-formed tile values, it fails with
InvalidDimensions exactly when their count differs from n*n, and otherwise
returns exactly the collected tile values. -/
theorem c9_parse_input_file (lines : List String) :
    (parse_input_file lines = .error .missingSize ↔
      effectiveLines lines = []) ∧
    (∀ l rest n, effectiveLines lines = l :: rest →
      pyInt (pyStrip l) = some n →
      ((parse_input_file lines = .error .invalidSize ↔
          (n < 3 ∨ MAX_SIZE < n)) ∧
       (∀ vals, allValues rest = some vals → 3 ≤ n → n ≤ MAX_SIZE →
         ((parse_input_file lines = .error .invalidDims ↔
            (vals.length : Int) ≠ n * n) ∧
          ((vals.length : Int) = n * n → parse_input_file lines = .ok vals))))) := by
  rw [parse_eq_runFrom]
  constructor
  · cases heff : effectiveLines lines with
    | nil => simp [runFrom]
    | cons l rest =>
      constructor
      · intro h
        exact absurd h (runFrom_cons_ne_missing l rest)
      · intro h
        exact List.noConfusion h
  · intro l rest n heff hn
    rw [heff]
    simp only [runFrom, hn]
    by_cases hr : (n < 3 || n > MAX_SIZE) = true
    · have hr2 : n < 3 ∨ MAX_SIZE < n := by
        simpa [Bool.or_eq_true, decide_eq_true_eq] using hr
      rw [if_pos hr]
      refine ⟨⟨fun _ => hr2, fun _ => rfl⟩, ?_⟩
      intro vals _ h3 h16
      exfalso
      rcases hr2 with h | h
      · omega
      · simp only [MAX_SIZE] at *
        omega
    · have hr2 : ¬(n < 3 ∨ MAX_SIZE < n) := by
        intro hcontra
        apply hr
        simp only [Bool.or_eq_true, decide_eq_true_eq]
        rcases hcontra with h | h
        · exact Or.inl h
        · exact Or.inr h
      rw [if_neg hr]
      constructor
      · constructor
        · intro h
          exfalso
          revert h
          cases hA : allValues rest with
          | none =>
            dsimp only
            intro h
            injection h with h2
            exact ParseErr.noConfusion h2
          | some vals =>
            dsimp only
            by_cases hd : ((vals.length : Int) ≠ n * n)
            · rw [if_pos hd]
              intro h
              injection h with h2
              exact ParseErr.noConfusion h2
            · rw [if_neg hd]
              intro h
              exact Except.noConfusion h
        · intro h
          exact absurd h hr2
      · intro vals hA _ _
        rw [hA]
        dsimp only
        by_cases hd : ((vals.length : Int) ≠ n * n)
        · rw [if_pos hd]
          exact ⟨⟨fun _ => hd, fun _ => rfl⟩, fun h => absurd h hd⟩
        · rw [if_neg hd]
          push_neg at hd
          refine ⟨⟨?_, fun h => absurd h (by simp [hd])⟩, fun _ => rfl⟩
          intro h
          exact Except.noConfusion h

theorem c9_parse_input_file_witness :
    parse_input_file ["# comment", "", "3", "1 2 3", "8 0 4", "7 6 5"] =
      .ok [1, 2, 3, 8, 0, 4, 7, 6, 5] :=
  (((c9_parse_input_file ["# comment", "", "3", "1 2 3", "8 0 4", "7 6 5"]).2
    "3" ["1 2 3", "8 0 4", "7 6 5"] 3 (by decide) (by decide)).2
    [1, 2, 3, 8, 0, 4, 7, 6, 5] rfl (by decide) (by decide)).2 (by decide)

end NPuzzle
